import Mathlib

/-!
Verification development for the volumetric source-term evaluation engine of
`cs_source_term.c` (Code_Saturne CDO module).

The C code is shallowly embedded: machine doubles are modelled by `ℚ`
(exact field arithmetic; the claims under study are about the algebraic
structure of the computations, not rounding), caller-owned output arrays by
functions `ℕ → ℚ` updated pointwise (an in-place `values[v] += x` becomes a
pointwise functional update), and the fatal-error mechanism `bft_error`
(which aborts the program) by an `Except` error result.  Bit masks
(`cs_mask_t`) are modelled by `ℕ` with `|||`/`testBit`, which agrees with
the C bit operations on the guarded index range.
-/

set_option maxHeartbeats 1000000

/-! ## Basic data: 3-vectors, buffers -/

/-- Coordinates of a point (`cs_real_3_t`). -/
abbrev Vec3 := ℚ × ℚ × ℚ

def v3zero : Vec3 := (0, 0, 0)

def v3add (a b : Vec3) : Vec3 := (a.1 + b.1, a.2.1 + b.2.1, a.2.2 + b.2.2)

def v3smul (r : ℚ) (a : Vec3) : Vec3 := (r * a.1, r * a.2.1, r * a.2.2)

def v3sub (a b : Vec3) : Vec3 := (a.1 - b.1, a.2.1 - b.2.1, a.2.2 - b.2.2)

/-- A caller-owned array of doubles, modelled as a function from index. -/
abbrev Buffer := ℕ → ℚ

/-- In-place accumulation `b[v] += x`. -/
def bufAdd (b : Buffer) (v : ℕ) (x : ℚ) : Buffer :=
  fun i => if i = v then b v + x else b i

/-- In-place overwrite `b[v] = x`. -/
def bufSet (b : Buffer) (v : ℕ) (x : ℚ) : Buffer :=
  fun i => if i = v then x else b i

/-- The loop `for (v = 0; v < n; v++) b[v] += g v;`. -/
def addLoop (n : ℕ) (g : ℕ → ℚ) (b : Buffer) : Buffer :=
  (List.range n).foldl (fun b v => bufAdd b v (g v)) b

/-- The loop `for (v = 0; v < n; v++) b[v] = g v;`. -/
def setLoop (n : ℕ) (g : ℕ → ℚ) (b : Buffer) : Buffer :=
  (List.range n).foldl (fun b v => bufSet b v (g v)) b

theorem addLoop_apply (n : ℕ) (g : ℕ → ℚ) (b : Buffer) (i : ℕ) :
    addLoop n g b i = if i < n then b i + g i else b i := by
  induction n with
  | zero => simp [addLoop]
  | succ n ih =>
    have h : addLoop (n + 1) g b = bufAdd (addLoop n g b) n (g n) := by
      simp [addLoop, List.range_succ]
    rw [h]
    by_cases hi : i = n
    · subst hi
      simp only [bufAdd, if_pos rfl, ih]
      simp
    · simp only [bufAdd, if_neg hi, ih]
      by_cases hlt : i < n
      · rw [if_pos hlt, if_pos (Nat.lt_succ_of_lt hlt)]
      · rw [if_neg hlt, if_neg (by omega)]

theorem setLoop_apply (n : ℕ) (g : ℕ → ℚ) (b : Buffer) (i : ℕ) :
    setLoop n g b i = if i < n then g i else b i := by
  induction n with
  | zero => simp [setLoop]
  | succ n ih =>
    have h : setLoop (n + 1) g b = bufSet (setLoop n g b) n (g n) := by
      simp [setLoop, List.range_succ]
    rw [h]
    by_cases hi : i = n
    · subst hi
      simp [bufSet]
    · simp only [bufSet, if_neg hi, ih]
      by_cases hlt : i < n
      · rw [if_pos hlt, if_pos (Nat.lt_succ_of_lt hlt)]
      · rw [if_neg hlt, if_neg (by omega)]

/-! ## The data model of `cs_xdef_t` and the cell-local structures -/

/-- The discretization scheme (`cs_space_scheme_t`), restricted to the tags
the source-term classifier inspects. -/
inductive SpaceScheme
  | CDOVB
  | CDOVCB
  | CDOFB
  | HHO
deriving DecidableEq

/-- The definition kind (`cs_xdef_type_t`); `byArray` stands for any tag that
falls into the `default:` branch of the classifier's switches. -/
inductive XdefType
  | byValue
  | byAnalyticFunction
  | byArray
deriving DecidableEq

/-- The quadrature selector (`cs_quadrature_type_t`); `qnone` stands for any
tag falling into the `default:` branch. -/
inductive QuadType
  | bary
  | barySubdiv
  | higher
  | highest
  | qnone
deriving DecidableEq

/-- The metadata bits of `cs_xdef_t.meta` that `cs_source_term.c` tests:
`CS_FLAG_PRIMAL`, `CS_FLAG_DUAL` and `CS_FLAG_FULL_LOC`. -/
structure MetaFlags where
  primal : Bool
  dual : Bool
  fullLoc : Bool
deriving DecidableEq

/-- A source-term definition (`cs_xdef_t`), restricted to the fields the
source-term module reads.  `input_val` is `((cs_real_t *)input)[0]` for a
by-value definition; `ana` is the analytic callback together with its opaque
context, as a function of the current time and the evaluation point. -/
structure Xdef where
  z_id : ℕ
  meta : MetaFlags
  type : XdefType
  qtype : QuadType
  input_val : ℚ
  ana : ℚ → Vec3 → ℚ

instance : Inhabited Xdef :=
  ⟨⟨0, ⟨false, false, false⟩, .byValue, .bary, 0, fun _ _ => 0⟩⟩

/-- The cell-local geometry bundle (`cs_cell_mesh_t`), restricted to the
fields the evaluators read.  `e2v_ids e` packs `(e2v_ids[2e], e2v_ids[2e+1])`;
`tef` is indexed by the position in the face-edge adjacency like `cm->tef`. -/
structure CellMesh where
  c_id : ℕ
  n_vc : ℕ
  n_ec : ℕ
  n_fc : ℕ
  vol_c : ℚ
  wvc : ℕ → ℚ
  xv : ℕ → Vec3
  xc : Vec3
  face_center : ℕ → Vec3
  hfc : ℕ → ℚ
  f2e_idx : ℕ → ℕ
  f2e_ids : ℕ → ℕ
  e2v_ids : ℕ → ℕ × ℕ
  tef : ℕ → ℚ
  edge_center : ℕ → Vec3

/-- A cellwise dense matrix (`cs_locmat_t`). -/
structure LocMat where
  n : ℕ
  val : ℕ → ℕ → ℚ

/-- Matrix–vector product `cs_locmat_matvec`:
`mv[i] = sum_{j < n} mat[i][j] * vec[j]`. -/
def cs_locmat_matvec (m : LocMat) (vec : ℕ → ℚ) : ℕ → ℚ :=
  fun i => ∑ j ∈ Finset.range m.n, m.val i j * vec j

/-- The scratch structure `cs_cell_builder_t`; only the pre-computed discrete
Hodge operator `cb->hdg` carries information across the call boundary (the
`values`/`vectors` scratch arrays are internal temporaries of each evaluator
and are inlined in the embedding). -/
structure CellBuilder where
  hdg : LocMat

/-- Module-level shared state read by the evaluators (`cs_time_step->t_cur`). -/
structure GlobalContext where
  t_cur : ℚ

/-- Signature of a cellwise evaluator (`cs_source_term_cellwise_t`). -/
abbrev Evaluator := Option Xdef → CellMesh → CellBuilder → Buffer → Buffer

/-- The list of face-edge adjacency positions
`i ∈ [f2e_idx[f], f2e_idx[f+1])` of face `f`. -/
def faceEdgeIdxs (cm : CellMesh) (f : ℕ) : List ℕ :=
  List.range' (cm.f2e_idx f) (cm.f2e_idx (f + 1) - cm.f2e_idx f)

/-! ## Evaluators -/

/-- Embedding of `cs_source_term_dcsd_by_value`: scalar density defined at
dual cells by a constant; `values[v] += density_value * wvc[v] * vol_c`
for each vertex `v` of the cell. -/
def cs_source_term_dcsd_by_value : Evaluator := fun source cm _cb values =>
  match source with
  | none => values
  | some src =>
    let density_value := src.input_val
    addLoop cm.n_vc (fun v => density_value * cm.wvc v * cm.vol_c) values

/-- Embedding of `cs_source_term_fbsd_by_value`: scalar density on primal
cells for face-based schemes; the C code *assigns*
`values[cm->n_fc] = input[0] * cm->vol_c` (it does not accumulate). -/
def cs_source_term_fbsd_by_value : Evaluator := fun source cm _cb values =>
  match source with
  | none => values
  | some src => bufSet values cm.n_fc (src.input_val * cm.vol_c)

/-- Embedding of `cs_source_term_pvsp_by_value`: constant potential at primal
vertices, turned into residuals through the pre-computed Hodge operator
`cb->hdg`; accumulates `values[v] += (hdg · eval)[v]`. -/
def cs_source_term_pvsp_by_value : Evaluator := fun source cm cb values =>
  match source with
  | none => values
  | some src =>
    let eval : ℕ → ℚ := fun _ => src.input_val
    let hdg_eval := cs_locmat_matvec cb.hdg eval
    addLoop cm.n_vc (fun v => hdg_eval v) values

/-- Embedding of `cs_source_term_pvsp_by_analytic`: potential at primal
vertices sampled by the analytic callback at the vertex coordinates, then
multiplied by the Hodge operator; accumulates into `values`. -/
def cs_source_term_pvsp_by_analytic (env : GlobalContext) : Evaluator :=
  fun source cm cb values =>
  match source with
  | none => values
  | some src =>
    let eval : ℕ → ℚ := fun v => src.ana env.t_cur (cm.xv v)
    let hdg_eval := cs_locmat_matvec cb.hdg eval
    addLoop cm.n_vc (fun v => hdg_eval v) values

/-- Embedding of `cs_source_term_vcsp_by_value`: constant potential at primal
vertices and at the cell center (`n_vc + 1` entries), multiplied by the
Hodge operator; accumulates into `values`. -/
def cs_source_term_vcsp_by_value : Evaluator := fun source cm cb values =>
  match source with
  | none => values
  | some src =>
    let eval : ℕ → ℚ := fun _ => src.input_val
    let hdg_eval := cs_locmat_matvec cb.hdg eval
    addLoop (cm.n_vc + 1) (fun v => hdg_eval v) values

/-- Embedding of `cs_source_term_vcsp_by_analytic`: analytic potential
sampled at the vertices and at the cell center, multiplied by the Hodge
operator; accumulates into `values`. -/
def cs_source_term_vcsp_by_analytic (env : GlobalContext) : Evaluator :=
  fun source cm cb values =>
  match source with
  | none => values
  | some src =>
    let eval : ℕ → ℚ := fun v =>
      if v < cm.n_vc then src.ana env.t_cur (cm.xv v) else src.ana env.t_cur cm.xc
    let hdg_eval := cs_locmat_matvec cb.hdg eval
    addLoop (cm.n_vc + 1) (fun v => hdg_eval v) values

/-- Embedding of `cs_source_term_fbsd_bary_by_analytic`: for face-based
schemes the cell degree of freedom receives `f(x_c) * vol_c`; the C code
*assigns* `values[cm->n_fc] = ...` (it does not accumulate). -/
def cs_source_term_fbsd_bary_by_analytic (env : GlobalContext) : Evaluator :=
  fun source cm _cb values =>
  match source with
  | none => values
  | some src => bufSet values cm.n_fc (cm.vol_c * src.ana env.t_cur cm.xc)

/-- Pointwise accumulation into a vector-valued scratch buffer
(`xgv[v][k] += x[k]`). -/
def vbufAdd (g : ℕ → Vec3) (v : ℕ) (x : Vec3) : ℕ → Vec3 :=
  fun i => if i = v then v3add (g v) x else g i

/-- Embedding of `cs_source_term_dcsd_bary_by_analytic`: per-vertex
dual-cell barycenters are accumulated over the sub-tetrahedra
`(vertex, edge, face-center, cell-center)` of every face, normalized by the
dual-cell volume `vol_c * wvc[v]`, the analytic function is evaluated once
per vertex at that barycenter, and the C code *assigns*
`values[v] = vol_c * wvc[v] * eval` (it does not accumulate).  The C
division `1 / vol_vc[v]` is embedded with the `ℚ` convention `1/0 = 0`;
under the documented preconditions the divisor is nonzero. -/
def cs_source_term_dcsd_bary_by_analytic (env : GlobalContext) : Evaluator :=
  fun source cm _cb values =>
  match source with
  | none => values
  | some src =>
    let xgv0 : ℕ → Vec3 := fun _ => v3zero
    let xgv := (List.range cm.n_fc).foldl (fun xgv f =>
      let xf := cm.face_center f
      let hf_coef := (1/6 : ℚ) * cm.hfc f
      let xfc := v3smul (1/4) (v3add xf cm.xc)
      (faceEdgeIdxs cm f).foldl (fun xgv i =>
        let e := cm.f2e_ids i
        let v1 := (cm.e2v_ids e).1
        let v2 := (cm.e2v_ids e).2
        let xv1 := cm.xv v1
        let xv2 := cm.xv v2
        let tet_vol := cm.tef i * hf_coef
        let xgv1 := vbufAdd xgv v1
          (v3smul tet_vol
            (v3add xfc (v3add (v3smul (3/8) xv1) (v3smul (1/8) xv2))))
        vbufAdd xgv1 v2
          (v3smul tet_vol
            (v3add xfc (v3add (v3smul (3/8) xv2) (v3smul (1/8) xv1))))) xgv) xgv0
    let vol_vc : ℕ → ℚ := fun v => cm.vol_c * cm.wvc v
    let xgvn : ℕ → Vec3 := fun v => v3smul (1 / vol_vc v) (xgv v)
    let eval_xgv : ℕ → ℚ := fun v => src.ana env.t_cur (xgvn v)
    setLoop cm.n_vc (fun v => cm.vol_c * cm.wvc v * eval_xgv v) values

/-- Decidable check that every per-vertex divisor `vol_c * wvc[v]` of the
barycentric evaluator is nonzero. -/
def dcsd_bary_divisors_nonzero (cm : CellMesh) : Bool :=
  (List.range cm.n_vc).all (fun v => decide (cm.vol_c * cm.wvc v ≠ 0))

/-- Guarded variant of the barycentric evaluator, stated from the spec's
safety reading: the division by `vol_c * wvc[v]` is performed only after
checking every divisor is nonzero, and `none` is returned otherwise.  The
actual code (`cs_source_term_dcsd_bary_by_analytic`) has no such guard. -/
def cs_source_term_dcsd_bary_by_analytic_guarded (env : GlobalContext)
    (source : Option Xdef) (cm : CellMesh) (cb : CellBuilder)
    (values : Buffer) : Option Buffer :=
  match source with
  | none => some values
  | some src =>
    if dcsd_bary_divisors_nonzero cm then
      some (cs_source_term_dcsd_bary_by_analytic env (some src) cm cb values)
    else
      none

/-- Embedding of `cs_source_term_dcsd_q1o1_by_analytic`: one evaluation per
half-sub-tetrahedron barycenter, accumulated with weight
`tef[i] * hfc[f] / 6` into the two edge vertices. -/
def cs_source_term_dcsd_q1o1_by_analytic (env : GlobalContext) : Evaluator :=
  fun source cm _cb values =>
  match source with
  | none => values
  | some src =>
    (List.range cm.n_fc).foldl (fun values f =>
      let xf := cm.face_center f
      let hf_coef := (1/6 : ℚ) * cm.hfc f
      let xfc := v3smul (1/4) (v3add xf cm.xc)
      (faceEdgeIdxs cm f).foldl (fun values i =>
        let e := cm.f2e_ids i
        let v1 := (cm.e2v_ids e).1
        let v2 := (cm.e2v_ids e).2
        let xv1 := cm.xv v1
        let xv2 := cm.xv v2
        let half_pef_vol := cm.tef i * hf_coef
        let xg1 := v3add xfc (v3add (v3smul (3/8) xv1) (v3smul (1/8) xv2))
        let xg2 := v3add xfc (v3add (v3smul (3/8) xv2) (v3smul (1/8) xv1))
        let values1 := bufAdd values v1 (half_pef_vol * src.ana env.t_cur xg1)
        bufAdd values1 v2 (half_pef_vol * src.ana env.t_cur xg2)) values) values

/-- Embedding of `cs_source_term_dcsd_q10o2_by_analytic`: the ten-point
order-2 rule.  Corner evaluations (cell center, vertices) carry weight
`-1/20`, midpoint evaluations (vertex-cell, edge, edge-cell, vertex-edge,
edge-face, face, face-cell, vertex-face midpoints) carry weight `1/5`,
combined with the sub-tetrahedral volumes `tef[i] * hfc[f] / 6` and the
dual-volume fractions; the result is accumulated into `values`. -/
def cs_source_term_dcsd_q10o2_by_analytic (env : GlobalContext) : Evaluator :=
  fun source cm _cb values =>
  match source with
  | none => values
  | some src =>
    let f := src.ana env.t_cur
    let eval_c := f cm.xc
    let contrib0 : Buffer := fun v =>
      cm.wvc v * cm.vol_c *
        (-(1/20) * (eval_c + f (cm.xv v))
          + (1/5) * f (v3smul (1/2) (v3add cm.xc (cm.xv v))))
    let contrib := (List.range cm.n_fc).foldl (fun contrib fc =>
      let xf := cm.face_center fc
      let hfc := cm.hfc fc
      let step := (faceEdgeIdxs cm fc).foldl (fun (st : Buffer × Buffer) i =>
        let pvf_vol := st.1
        let ctb := st.2
        let e := cm.f2e_ids i
        let v1 := (cm.e2v_ids e).1
        let v2 := (cm.e2v_ids e).2
        let half_pef_vol := (1/6 : ℚ) * cm.tef i * hfc
        let pvf1 := bufAdd (bufAdd pvf_vol v1 half_pef_vol) v2 half_pef_vol
        let xe := cm.edge_center e
        let xef := v3smul (1/2) (v3add xe xf)
        let xec := v3smul (1/2) (v3add cm.xc xe)
        let common := (1/5) * (f xef + f xec) - (1/20) * f xe
        let xve1 := v3smul (1/2) (v3add (cm.xv v1) xe)
        let xve2 := v3smul (1/2) (v3add (cm.xv v2) xe)
        let ctb1 := bufAdd ctb v1 (half_pef_vol * (common + (1/5) * f xve1))
        (pvf1, bufAdd ctb1 v2 (half_pef_vol * (common + (1/5) * f xve2))))
        ((fun _ => 0), contrib)
      let pvf_vol := step.1
      let val_vfc := -(1/20) * f xf + (1/5) * f (v3smul (1/2) (v3add xf cm.xc))
      (List.range cm.n_vc).foldl (fun ctb v =>
        if 0 < pvf_vol v then
          bufAdd ctb v
            (pvf_vol v *
              (val_vfc + (1/5) * f (v3smul (1/2) (v3add xf (cm.xv v)))))
        else ctb) step.2) contrib0
    addLoop cm.n_vc (fun v => contrib v) values

/-- Determinant of three column vectors. -/
def det3 (a b c : Vec3) : ℚ :=
  a.1 * (b.2.1 * c.2.2 - b.2.2 * c.2.1)
    - a.2.1 * (b.1 * c.2.2 - b.2.2 * c.1)
    + a.2.2 * (b.1 * c.2.1 - b.2.1 * c.1)

/-- Modelled from the spec: `cs_math_voltet` (its source, `cs_math.h`, is
not part of the sampled files) — the signed volume of the tetrahedron
`(x0, x1, x2, x3)`, one sixth of the triple product of the edge vectors. -/
def cs_math_voltet (x0 x1 x2 x3 : Vec3) : ℚ :=
  (1/6) * det3 (v3sub x1 x0) (v3sub x2 x0) (v3sub x3 x0)

/-- Modelled from the spec: `cs_quadrature_tet_5pts` (its source,
`cs_quadrature.h/c`, is not part of the sampled files) — the canonical
5-point, degree-3 Gauss rule on a tetrahedron: the barycenter with weight
`-4/5 * vol` and, per vertex, the point with barycentric coordinates
`(1/2, 1/6, 1/6, 1/6)` with weight `9/20 * vol`. -/
def cs_quadrature_tet_5pts (x0 x1 x2 x3 : Vec3) (vol : ℚ) :
    List (Vec3 × ℚ) :=
  let s := v3add (v3add x0 x1) (v3add x2 x3)
  let corner := fun (x : Vec3) => v3add (v3smul (1/6) s) (v3smul (1/3) x)
  [(v3smul (1/4) s, -(4/5) * vol),
   (corner x0, (9/20) * vol),
   (corner x1, (9/20) * vol),
   (corner x2, (9/20) * vol),
   (corner x3, (9/20) * vol)]

/-- Embedding of `cs_source_term_dcsd_q5o3_by_analytic`: for each
(vertex, edge) pair bounding a face, a degenerate tetrahedron
`(vertex, edge-center, face-center, cell-center)` of half the sub-tet
volume `voltet(xv1, xv2, xf, xc)` is integrated with the 5-point Gauss
rule, and the weighted sums are accumulated into the vertex entries. -/
def cs_source_term_dcsd_q5o3_by_analytic (env : GlobalContext) : Evaluator :=
  fun source cm _cb values =>
  match source with
  | none => values
  | some src =>
    let f := src.ana env.t_cur
    let contrib0 : Buffer := fun _ => 0
    let contrib := (List.range cm.n_fc).foldl (fun contrib fc =>
      let xf := cm.face_center fc
      (faceEdgeIdxs cm fc).foldl (fun contrib i =>
        let e := cm.f2e_ids i
        let v1 := (cm.e2v_ids e).1
        let v2 := (cm.e2v_ids e).2
        let tet_vol :=
          (1/2 : ℚ) * cs_math_voltet (cm.xv v1) (cm.xv v2) xf cm.xc
        let pts1 :=
          cs_quadrature_tet_5pts (cm.xv v1) (cm.edge_center e) xf cm.xc tet_vol
        let sum1 := pts1.foldl (fun s pw => s + f pw.1 * pw.2) 0
        let contrib1 := bufAdd contrib v1 sum1
        let pts2 :=
          cs_quadrature_tet_5pts (cm.xv v2) (cm.edge_center e) xf cm.xc tet_vol
        let sum2 := pts2.foldl (fun s pw => s + f pw.1 * pw.2) 0
        bufAdd contrib1 v2 sum2) contrib) contrib0
    addLoop cm.n_vc (fun v => contrib v) values

/-! ## The evaluator family -/

/-- The closed family of evaluators bound by the classifier
(`compute_source[st_id]` function-pointer targets). -/
inductive EvalTag
  | dcsd_by_value
  | dcsd_bary_by_analytic
  | dcsd_q1o1_by_analytic
  | dcsd_q10o2_by_analytic
  | dcsd_q5o3_by_analytic
  | pvsp_by_value
  | pvsp_by_analytic
  | vcsp_by_value
  | vcsp_by_analytic
  | fbsd_by_value
  | fbsd_bary_by_analytic
deriving DecidableEq

/-- Interpretation of an evaluator tag as the embedded evaluator. -/
def evalTagFun (env : GlobalContext) : EvalTag → Evaluator
  | .dcsd_by_value => cs_source_term_dcsd_by_value
  | .dcsd_bary_by_analytic => cs_source_term_dcsd_bary_by_analytic env
  | .dcsd_q1o1_by_analytic => cs_source_term_dcsd_q1o1_by_analytic env
  | .dcsd_q10o2_by_analytic => cs_source_term_dcsd_q10o2_by_analytic env
  | .dcsd_q5o3_by_analytic => cs_source_term_dcsd_q5o3_by_analytic env
  | .pvsp_by_value => cs_source_term_pvsp_by_value
  | .pvsp_by_analytic => cs_source_term_pvsp_by_analytic env
  | .vcsp_by_value => cs_source_term_vcsp_by_value
  | .vcsp_by_analytic => cs_source_term_vcsp_by_analytic env
  | .fbsd_by_value => cs_source_term_fbsd_by_value
  | .fbsd_bary_by_analytic => cs_source_term_fbsd_bary_by_analytic env

/-! ## The per-cell dispatcher -/

/-- The bits of the algebraic-system metadata flag `sys_flag` that
`cs_source_term.c` reads or writes: `CS_FLAG_SYS_SOURCETERM`,
`CS_FLAG_SYS_HLOC_CONF` and `CS_FLAG_SYS_SOURCES_HLOC`. -/
structure SysFlags where
  sourceterm : Bool
  hloc_conf : Bool
  sources_hloc : Bool
deriving DecidableEq

/-- The reset loop `for (i = 0; i < csys->n_dofs; i++) csys->source[i] = 0`. -/
def zeroFirst (k : ℕ) (b : Buffer) : Buffer :=
  fun i => if i < k then 0 else b i

/-- Body of `cs_source_term_compute_cellwise` after the buffer reset: return
early unless `CS_FLAG_SYS_SOURCETERM` is set, then run either the unmasked
loop (all source terms span the whole mesh) or the masked loop, which
invokes `compute_source[st_id]` only when bit `st_id` of
`source_mask[cm->c_id]` is set. -/
def computeCellwiseBody (n_source_terms : ℕ) (source_terms : List (Option Xdef))
    (cm : CellMesh) (sys_flag : SysFlags) (source_mask : Option (List ℕ))
    (compute_source : ℕ → Evaluator) (cb : CellBuilder) (b0 : Buffer) :
    Buffer :=
  if sys_flag.sourceterm = false then b0
  else
    match source_mask with
    | none =>
      (List.range n_source_terms).foldl
        (fun b st_id =>
          compute_source st_id (source_terms.getD st_id none) cm cb b) b0
    | some mask =>
      (List.range n_source_terms).foldl
        (fun b st_id =>
          if (mask.getD cm.c_id 0).testBit st_id then
            compute_source st_id (source_terms.getD st_id none) cm cb b
          else b) b0

/-- Embedding of `cs_source_term_compute_cellwise`: reset the first
`csys->n_dofs` entries of the local contribution buffer to zero, then run
the active evaluators, each accumulating in place. -/
def cs_source_term_compute_cellwise (n_source_terms : ℕ)
    (source_terms : List (Option Xdef)) (cm : CellMesh) (sys_flag : SysFlags)
    (source_mask : Option (List ℕ)) (compute_source : ℕ → Evaluator)
    (cb : CellBuilder) (n_dofs : ℕ) (buf : Buffer) : Buffer :=
  computeCellwiseBody n_source_terms source_terms cm sys_flag source_mask
    compute_source cb (zeroFirst n_dofs buf)

theorem foldl_congr_mem {α β : Type} (l : List α) (f g : β → α → β) :
    ∀ b : β, (∀ acc x, x ∈ l → f acc x = g acc x) →
      l.foldl f b = l.foldl g b := by
  induction l with
  | nil => intro b _; rfl
  | cons x l ih =>
    intro b h
    simp only [List.foldl_cons]
    rw [h b x (List.mem_cons_self x l)]
    exact ih _ (fun acc y hy => h acc y (List.mem_cons_of_mem x hy))

theorem foldl_apply_fixed {α : Type} (l : List α) (f : Buffer → α → Buffer)
    (i : ℕ) (h : ∀ b x, x ∈ l → f b x i = b i) :
    ∀ b : Buffer, (l.foldl f b) i = b i := by
  induction l with
  | nil => intro b; rfl
  | cons x l ih =>
    intro b
    simp only [List.foldl_cons]
    rw [ih (fun acc y hy => h acc y (List.mem_cons_of_mem x hy))]
    exact h b x (List.mem_cons_self x l)

/-- A unit-volume tetrahedral cell with dual-volume fractions 1/4 per vertex
(geometry fields not read by the by-value evaluators are zeroed). -/
def cmUnitTet : CellMesh where
  c_id := 0
  n_vc := 4
  n_ec := 6
  n_fc := 4
  vol_c := 1
  wvc := fun _ => 1/4
  xv := fun _ => v3zero
  xc := v3zero
  face_center := fun _ => v3zero
  hfc := fun _ => 0
  f2e_idx := fun _ => 0
  f2e_ids := fun _ => 0
  e2v_ids := fun _ => (0, 0)
  tef := fun _ => 0
  edge_center := fun _ => v3zero

/-- An empty cell builder (no Hodge operator needed by the claims below). -/
def cb0 : CellBuilder := ⟨⟨0, fun _ _ => 0⟩⟩

/-- A by-value dual-cell source-term definition with value 2.0 spanning the
full domain. -/
def srcVal2 : Xdef where
  z_id := 0
  meta := ⟨false, true, true⟩
  type := .byValue
  qtype := .bary
  input_val := 2
  ana := fun _ _ => 0

/-- A time-step context with `t_cur = 0`. -/
def env0 : GlobalContext := ⟨0⟩

/-- A degenerate one-vertex cell with no faces: the barycentric evaluator's
face loops are empty on it, which isolates the division and the final
write-back. -/
def cmPoint : CellMesh where
  c_id := 0
  n_vc := 1
  n_ec := 0
  n_fc := 0
  vol_c := 1
  wvc := fun _ => 1
  xv := fun _ => v3zero
  xc := v3zero
  face_center := fun _ => v3zero
  hfc := fun _ => 0
  f2e_idx := fun _ => 0
  f2e_ids := fun _ => 0
  e2v_ids := fun _ => (0, 0)
  tef := fun _ => 0
  edge_center := fun _ => v3zero

/-- An analytic source-term definition whose callback is the constant 3. -/
def srcAna3 : Xdef where
  z_id := 0
  meta := ⟨false, true, true⟩
  type := .byAnalyticFunction
  qtype := .bary
  input_val := 0
  ana := fun _ _ => 3

/-! ## Claim C9 -/

/-- C9: passing a NULL definition to any evaluator of the family invoked
from the per-cell dispatcher is a no-op: the evaluator returns immediately
and the output buffer is unchanged, for every cell and prior contents. -/
theorem null_definition_is_noop_for_every_evaluator :
    ∀ (env : GlobalContext) (tag : EvalTag) (cm : CellMesh)
      (cb : CellBuilder) (b : Buffer),
      evalTagFun env tag none cm cb b = b := by
  intro env tag cm cb b
  cases tag <;> rfl

/-! ## Claim C10 -/

/-- C10: under the preconditions `0 < vol_c` and `0 < wvc[v]` for every
vertex of the cell, every divisor `vol_c * wvc[v]` of
`cs_source_term_dcsd_bary_by_analytic` is nonzero, so the unguarded
division of the actual code agrees with the guarded variant: the
division-by-zero branch is unreachable. -/
theorem dcsd_bary_division_well_defined
    (env : GlobalContext) (src : Xdef) (cm : CellMesh) (cb : CellBuilder)
    (values : Buffer)
    (hvol : 0 < cm.vol_c) (hwvc : ∀ v, v < cm.n_vc → 0 < cm.wvc v) :
    cs_source_term_dcsd_bary_by_analytic_guarded env (some src) cm cb values
      = some (cs_source_term_dcsd_bary_by_analytic env (some src) cm cb values)
      := by
  have h : dcsd_bary_divisors_nonzero cm = true := by
    unfold dcsd_bary_divisors_nonzero
    rw [List.all_eq_true]
    intro v hv
    rw [List.mem_range] at hv
    exact decide_eq_true (mul_ne_zero hvol.ne' (hwvc v hv).ne')
  simp [cs_source_term_dcsd_bary_by_analytic_guarded, h]

/-- Witness for C10: the guarded and unguarded barycentric evaluators agree
on the one-vertex unit cell. -/
theorem dcsd_bary_division_well_defined_witness :
    cs_source_term_dcsd_bary_by_analytic_guarded env0 (some srcAna3) cmPoint
        cb0 (fun _ => 0)
      = some (cs_source_term_dcsd_bary_by_analytic env0 (some srcAna3) cmPoint
          cb0 (fun _ => 0)) :=
  dcsd_bary_division_well_defined env0 srcAna3 cmPoint cb0 (fun _ => 0)
    (by norm_num [cmPoint]) (by intro v _; norm_num [cmPoint])

/-! ## Claim C2 -/

/-- C2 fails on the code: `cs_source_term_fbsd_by_value` and
`cs_source_term_dcsd_bary_by_analytic` *overwrite* the output entry instead
of accumulating into it, contradicting both the spec and the functions' own
doc comments ("add it the given array of values").  On a prior buffer whose
target entry holds 5, the face-based by-value evaluator (value 2, unit
volume) leaves 2 — not 5 + 2 — and the barycentric evaluator (constant
analytic value 3, unit cell) leaves 3 — not 5 + 3. -/
theorem fbsd_and_bary_overwrite_prior_contents :
    (cs_source_term_fbsd_by_value (some srcVal2) cmUnitTet cb0
        (fun i => if i = 4 then 5 else 0) 4 = 2
      ∧ (2 : ℚ) ≠ 5 + 2)
    ∧ (cs_source_term_dcsd_bary_by_analytic env0 (some srcAna3) cmPoint cb0
        (fun _ => 5) 0 = 3
      ∧ (3 : ℚ) ≠ 5 + 3) := by
  refine ⟨⟨?_, by norm_num⟩, ⟨?_, by norm_num⟩⟩
  · simp [cs_source_term_fbsd_by_value, bufSet, cmUnitTet, srcVal2]
  · simp [cs_source_term_dcsd_bary_by_analytic, cmPoint, srcAna3, env0,
      setLoop_apply, v3smul, v3zero]

/-! ## Claim C1 -/

/-- C1: `cs_source_term_dcsd_by_value` adds `rho * wvc[v] * vol_c` to the
entry of every vertex `v` of the cell, for every prior buffer contents; on a
unit-volume tetrahedral cell with `wvc = {1/4, 1/4, 1/4, 1/4}` and value
`2.0` the per-vertex contributions are `1/2` each and sum to `2`. -/
theorem dcsd_by_value_adds_density_times_dual_volume :
    (∀ (src : Xdef) (cm : CellMesh) (cb : CellBuilder) (values : Buffer) (v : ℕ),
        v < cm.n_vc →
        cs_source_term_dcsd_by_value (some src) cm cb values v
          = values v + src.input_val * cm.wvc v * cm.vol_c)
    ∧ (∀ v : ℕ, v < 4 →
        cs_source_term_dcsd_by_value (some srcVal2) cmUnitTet cb0 (fun _ => 0) v
          = 1/2)
    ∧ (cs_source_term_dcsd_by_value (some srcVal2) cmUnitTet cb0 (fun _ => 0) 0
        + cs_source_term_dcsd_by_value (some srcVal2) cmUnitTet cb0 (fun _ => 0) 1
        + cs_source_term_dcsd_by_value (some srcVal2) cmUnitTet cb0 (fun _ => 0) 2
        + cs_source_term_dcsd_by_value (some srcVal2) cmUnitTet cb0 (fun _ => 0) 3
        = 2) := by
  have key : ∀ v : ℕ, v < 4 →
      cs_source_term_dcsd_by_value (some srcVal2) cmUnitTet cb0 (fun _ => 0) v
        = 1/2 := by
    intro v hv
    simp only [cs_source_term_dcsd_by_value, addLoop_apply, cmUnitTet, srcVal2,
      if_pos hv]
    norm_num
  refine ⟨?_, key, ?_⟩
  · intro src cm cb values v hv
    simp only [cs_source_term_dcsd_by_value, addLoop_apply, if_pos hv]
  · rw [key 0 (by norm_num), key 1 (by norm_num), key 2 (by norm_num),
      key 3 (by norm_num)]
    norm_num

/-- Witness for C1: instantiation at vertex 0 of the unit tetrahedron. -/
theorem dcsd_by_value_adds_density_times_dual_volume_witness :
    cs_source_term_dcsd_by_value (some srcVal2) cmUnitTet cb0 (fun _ => 0) 0
      = (fun _ => (0 : ℚ)) 0 + srcVal2.input_val * cmUnitTet.wvc 0 * cmUnitTet.vol_c :=
  dcsd_by_value_adds_density_times_dual_volume.1 srcVal2 cmUnitTet cb0
    (fun _ => 0) 0 (by decide)

/-! ## Claim C4 -/

/-- C4: the per-cell dispatcher with `source_mask == NULL` produces exactly
the same output buffer as with a mask whose words have bit `i` set for
every (in-range) cell and every definition index `i < n`, for every cell,
definition list and bound evaluator table. -/
theorem no_mask_equals_full_mask
    (n : ℕ) (sts : List (Option Xdef)) (cm : CellMesh) (sys : SysFlags)
    (mask : List ℕ) (table : ℕ → Evaluator) (cb : CellBuilder) (k : ℕ)
    (buf : Buffer)
    (hbits : ∀ c, c < mask.length → ∀ i, i < n →
        (mask.getD c 0).testBit i = true)
    (hc : cm.c_id < mask.length) :
    cs_source_term_compute_cellwise n sts cm sys none table cb k buf
      = cs_source_term_compute_cellwise n sts cm sys (some mask) table cb k buf
      := by
  unfold cs_source_term_compute_cellwise computeCellwiseBody
  by_cases hs : sys.sourceterm = false
  · rw [if_pos hs, if_pos hs]
  · rw [if_neg hs, if_neg hs]
    exact foldl_congr_mem _ _ _ _
      (fun acc x hx =>
        (if_pos (hbits cm.c_id hc x (List.mem_range.mp hx))).symm)

/-- Witness for C4: one full-domain source term, the all-ones one-cell mask
`[1]`, and the unit tetrahedron. -/
theorem no_mask_equals_full_mask_witness :
    cs_source_term_compute_cellwise 1 [some srcVal2] cmUnitTet
        ⟨true, false, false⟩ none (fun _ => evalTagFun env0 .dcsd_by_value)
        cb0 4 (fun _ => 0)
      = cs_source_term_compute_cellwise 1 [some srcVal2] cmUnitTet
          ⟨true, false, false⟩ (some [1])
          (fun _ => evalTagFun env0 .dcsd_by_value) cb0 4 (fun _ => 0) :=
  no_mask_equals_full_mask 1 [some srcVal2] cmUnitTet ⟨true, false, false⟩
    [1] (fun _ => evalTagFun env0 .dcsd_by_value) cb0 4 (fun _ => 0)
    (by decide) (by decide)

/-! ## Claim C6 -/

/-- Helper for witnesses: `cs_source_term_dcsd_by_value` leaves every buffer
entry at an index at or beyond `n_vc` unchanged. -/
theorem dcsd_by_value_preserves_high (src : Xdef) (cm : CellMesh)
    (cb : CellBuilder) :
    ∀ (b : Buffer) (i : ℕ), cm.n_vc ≤ i →
      cs_source_term_dcsd_by_value (some src) cm cb b i = b i := by
  intro b i hi
  simp only [cs_source_term_dcsd_by_value, addLoop_apply]
  rw [if_neg (by omega)]

/-- C6 fails on the code: the dispatcher resets the buffer at entry
(`csys->source[i] = 0` for every local DoF), so invoking it twice in a row
on an initially zeroed buffer yields the *same* result as one invocation,
not double.  On the unit tetrahedron with one by-value source term of value
2, the vertex-0 entry is `1/2` after two consecutive invocations while
double the single-call result is `1`. -/
theorem dispatcher_twice_on_zero_buffer_not_double :
    cs_source_term_compute_cellwise 1 [some srcVal2] cmUnitTet
        ⟨true, false, false⟩ none (fun _ => evalTagFun env0 .dcsd_by_value)
        cb0 4
        (cs_source_term_compute_cellwise 1 [some srcVal2] cmUnitTet
          ⟨true, false, false⟩ none (fun _ => evalTagFun env0 .dcsd_by_value)
          cb0 4 (fun _ => 0)) 0
      = 1/2
    ∧ 2 * cs_source_term_compute_cellwise 1 [some srcVal2] cmUnitTet
          ⟨true, false, false⟩ none (fun _ => evalTagFun env0 .dcsd_by_value)
          cb0 4 (fun _ => 0) 0
      = 1
    ∧ (1/2 : ℚ) ≠ 1 := by
  have hone : ∀ b : Buffer,
      cs_source_term_compute_cellwise 1 [some srcVal2] cmUnitTet
        ⟨true, false, false⟩ none (fun _ => evalTagFun env0 .dcsd_by_value)
        cb0 4 b 0 = 1/2 := by
    intro b
    have hred : cs_source_term_compute_cellwise 1 [some srcVal2] cmUnitTet
        ⟨true, false, false⟩ none (fun _ => evalTagFun env0 .dcsd_by_value)
        cb0 4 b
          = addLoop 4
              (fun v => srcVal2.input_val * cmUnitTet.wvc v * cmUnitTet.vol_c)
              (zeroFirst 4 b) := rfl
    rw [hred, addLoop_apply]
    norm_num [zeroFirst, srcVal2, cmUnitTet]
  exact ⟨hone _, by rw [hone]; norm_num, by norm_num⟩

/-- C6 amended: because the dispatcher zeroes the local buffer at entry and
carries no hidden state, a second consecutive invocation reproduces the
first exactly (whenever the bound evaluators only write the local-DoF
entries, as all of them do). -/
theorem dispatcher_second_call_reproduces_first
    (n : ℕ) (sts : List (Option Xdef)) (cm : CellMesh) (sys : SysFlags)
    (mask : Option (List ℕ)) (table : ℕ → Evaluator) (cb : CellBuilder)
    (k : ℕ) (buf : Buffer)
    (hpres : ∀ st_id, st_id < n → ∀ (b : Buffer) (i : ℕ), k ≤ i →
        table st_id (sts.getD st_id none) cm cb b i = b i) :
    cs_source_term_compute_cellwise n sts cm sys mask table cb k
        (cs_source_term_compute_cellwise n sts cm sys mask table cb k buf)
      = cs_source_term_compute_cellwise n sts cm sys mask table cb k buf := by
  have hbody : ∀ (b : Buffer) (i : ℕ), k ≤ i →
      computeCellwiseBody n sts cm sys mask table cb b i = b i := by
    intro b i hi
    unfold computeCellwiseBody
    by_cases hs : sys.sourceterm = false
    · rw [if_pos hs]
    · rw [if_neg hs]
      cases mask with
      | none =>
        exact foldl_apply_fixed _ _ i
          (fun b' x hx => hpres x (List.mem_range.mp hx) b' i hi) b
      | some m =>
        refine foldl_apply_fixed _ _ i (fun b' x hx => ?_) b
        by_cases ht : (m.getD cm.c_id 0).testBit x = true
        · rw [if_pos ht]
          exact hpres x (List.mem_range.mp hx) b' i hi
        · rw [if_neg ht]
  have hz : zeroFirst k
      (computeCellwiseBody n sts cm sys mask table cb (zeroFirst k buf))
        = zeroFirst k buf := by
    funext i
    unfold zeroFirst
    by_cases hik : i < k
    · rw [if_pos hik, if_pos hik]
    · rw [if_neg hik, if_neg hik]
      rw [hbody _ i (le_of_not_lt hik)]
      rw [if_neg hik]
  unfold cs_source_term_compute_cellwise
  rw [hz]

/-- Witness for the amended C6: on the unit tetrahedron with one by-value
source term, the second invocation reproduces the first. -/
theorem dispatcher_second_call_reproduces_first_witness :
    cs_source_term_compute_cellwise 1 [some srcVal2] cmUnitTet
        ⟨true, false, false⟩ none (fun _ => evalTagFun env0 .dcsd_by_value)
        cb0 4
        (cs_source_term_compute_cellwise 1 [some srcVal2] cmUnitTet
          ⟨true, false, false⟩ none (fun _ => evalTagFun env0 .dcsd_by_value)
          cb0 4 (fun _ => 0))
      = cs_source_term_compute_cellwise 1 [some srcVal2] cmUnitTet
          ⟨true, false, false⟩ none (fun _ => evalTagFun env0 .dcsd_by_value)
          cb0 4 (fun _ => 0) :=
  dispatcher_second_call_reproduces_first 1 [some srcVal2] cmUnitTet
    ⟨true, false, false⟩ none (fun _ => evalTagFun env0 .dcsd_by_value) cb0 4
    (fun _ => 0)
    (fun st hst b i hi => by
      obtain rfl : st = 0 := by omega
      exact dcsd_by_value_preserves_high srcVal2 cmUnitTet cb0 b i hi)

/-! ## The classifier (`cs_source_term_init`) and the mask builder -/

/-- The cell-mesh build flags (`CS_CDO_LOCAL_*`) that the classifier unions
into the returned `msh_flag`, one Boolean per bit. -/
structure MshFlags where
  pv : Bool
  pvq : Bool
  peq : Bool
  pfq : Bool
  deq : Bool
  ev : Bool
  fe : Bool
  feq : Bool
  hfq : Bool
deriving DecidableEq

/-- Positional constructor for `MshFlags`
(order: pv, pvq, peq, pfq, deq, ev, fe, feq, hfq). -/
def mshF (pv pvq peq pfq deq ev fe feq hfq : Bool) : MshFlags :=
  ⟨pv, pvq, peq, pfq, deq, ev, fe, feq, hfq⟩

/-- The zero flag (`cs_flag_t msh_flag = 0`). -/
def MshFlags.empty : MshFlags :=
  mshF false false false false false false false false false

/-- Bitwise union of two flags (`msh_flag |= ...`). -/
def MshFlags.union (a b : MshFlags) : MshFlags :=
  mshF (a.pv || b.pv) (a.pvq || b.pvq) (a.peq || b.peq) (a.pfq || b.pfq)
    (a.deq || b.deq) (a.ev || b.ev) (a.fe || b.fe) (a.feq || b.feq)
    (a.hfq || b.hfq)

/-- The fatal configuration errors `cs_source_term_init` can raise through
`bft_error`, one constructor per call site, carrying exactly the data the C
code passes beyond the source location (only the limit of the too-many
check; no error mentions the equation or the definition index). -/
inductive InitError
  | tooManySourceTerms (limit : ℕ)
  | invalidQuadratureCDOVB
  | invalidDefTypeDualCDOVB
  | invalidDefTypePrimalCDOVB
  | dualNotHandledCDOVCB
  | invalidDefTypeCDOVCB
  | invalidDefTypeCDOFB
  | invalidScheme
deriving DecidableEq

/-- The scheme/location/kind/order dispatch of `cs_source_term_init`: for
one definition, either the cell-mesh flags to union and the evaluator to
bind, or the fatal configuration error of the corresponding `default:` /
unsupported branch. -/
def bindEvaluator (scheme : SpaceScheme) (d : Xdef) :
    Except InitError (MshFlags × EvalTag) :=
  match scheme with
  | .CDOVB =>
    if d.meta.dual then
      match d.type with
      | .byValue =>
        .ok (mshF false true false false false false false false false,
          .dcsd_by_value)
      | .byAnalyticFunction =>
        match d.qtype with
        | .bary =>
          .ok (mshF false true false true false true true true true,
            .dcsd_bary_by_analytic)
        | .barySubdiv =>
          .ok (mshF false false false true false true true true true,
            .dcsd_q1o1_by_analytic)
        | .higher =>
          .ok (mshF false true true true false true true true true,
            .dcsd_q10o2_by_analytic)
        | .highest =>
          .ok (mshF false false true true false true true false false,
            .dcsd_q5o3_by_analytic)
        | .qnone => .error .invalidQuadratureCDOVB
      | .byArray => .error .invalidDefTypeDualCDOVB
    else
      match d.type with
      | .byValue =>
        .ok (mshF true false false false false false false false false,
          .pvsp_by_value)
      | .byAnalyticFunction =>
        .ok (mshF true false false false false false false false false,
          .pvsp_by_analytic)
      | .byArray => .error .invalidDefTypePrimalCDOVB
  | .CDOVCB =>
    if d.meta.dual then
      .error .dualNotHandledCDOVCB
    else
      match d.type with
      | .byValue =>
        .ok (mshF true false false false false false false false false,
          .vcsp_by_value)
      | .byAnalyticFunction =>
        .ok (mshF true false false false false false false false false,
          .vcsp_by_analytic)
      | .byArray => .error .invalidDefTypeCDOVCB
  | .CDOFB =>
    match d.type with
    | .byValue => .ok (MshFlags.empty, .fbsd_by_value)
    | .byAnalyticFunction =>
      .ok (mshF true false false false false false false false false,
        .fbsd_bary_by_analytic)
    | .byArray => .error .invalidDefTypeCDOFB
  | .HHO => .error .invalidScheme

/-- The running state of the classification loop of `cs_source_term_init`:
the accumulated `msh_flag`, the in-out `sys_flag`, the function-pointer
table `compute_source` and the `need_mask` Boolean. -/
structure LoopState where
  msh : MshFlags
  sys : SysFlags
  table : List (Option EvalTag)
  need_mask : Bool

/-- The per-definition updates the loop performs before the scheme switch:
primal definitions under vertex(+cell)-based schemes union the local
Hodge-related flags into `msh_flag`/`sys_flag`, and a definition that does
not span the whole mesh sets `need_mask`. -/
def preUpdate (scheme : SpaceScheme) (d : Xdef) (s : LoopState) : LoopState :=
  let s1 :=
    if d.meta.primal
        && (decide (scheme = SpaceScheme.CDOVB)
            || decide (scheme = SpaceScheme.CDOVCB)) then
      { s with
        msh := s.msh.union (mshF false true false true true true false true true),
        sys := ⟨s.sys.sourceterm, true, true⟩ }
    else s
  if !d.meta.fullLoc then
    { s1 with need_mask := true }
  else s1

/-- One iteration of the classification loop: pre-updates, then bind the
evaluator for definition `st_id` (or propagate the fatal error). -/
def initStep (scheme : SpaceScheme) (st_id : ℕ) (d : Xdef) (s : LoopState) :
    Except InitError LoopState :=
  let s1 := preUpdate scheme d s
  match bindEvaluator scheme d with
  | .error e => .error e
  | .ok mt =>
    .ok { s1 with
      msh := s1.msh.union mt.1,
      table := s1.table.set st_id (some mt.2) }

/-- The classification loop over the source-term definitions, carried by
the running definition index. -/
def initLoop (scheme : SpaceScheme) :
    List Xdef → ℕ → LoopState → Except InitError LoopState
  | [], _, s => .ok s
  | d :: ds, st_id, s =>
    match initStep scheme st_id d s with
    | .error e => .error e
    | .ok s1 => initLoop scheme ds (st_id + 1) s1

/-- Embedding of the static helper `_set_mask`: OR the bit `1 << st_id`
into every cell's mask word if the definition spans the whole mesh,
otherwise into the words of exactly the cells of its zone
(`cs_volume_zone_by_id(st->z_id)->cell_ids`, modelled by the function
`zone_cells`). -/
def _set_mask (zone_cells : ℕ → List ℕ) (st : Xdef) (st_id : ℕ)
    (cell_mask : List ℕ) : List ℕ :=
  let mask := 2 ^ st_id
  if st.meta.fullLoc then
    cell_mask.map (fun w => w ||| mask)
  else
    (zone_cells st.z_id).foldl
      (fun cmk c => cmk.set c (cmk.getD c 0 ||| mask)) cell_mask

/-- The mask-building loop of `cs_source_term_init`: apply `_set_mask` for
each definition in declaration order, carried by the definition index. -/
def buildMaskAux (zone_cells : ℕ → List ℕ) :
    List Xdef → ℕ → List ℕ → List ℕ
  | [], _, m => m
  | d :: ds, st_id, m =>
    buildMaskAux zone_cells ds (st_id + 1) (_set_mask zone_cells d st_id m)

/-- Modelled from the spec: the constant `CS_N_MAX_SOURCE_TERMS` is defined
in `cs_source_term.h`, which is not among the sampled sources; the spec
requires a compile/configuration-time bound wide enough for one mask bit
per definition ("a few dozen, not unbounded").  The value chosen here is
immaterial: the theorems below hold for any value. -/
def CS_N_MAX_SOURCE_TERMS : ℕ := 8

/-- The outputs of `cs_source_term_init`: the returned cell-mesh flag, the
updated system flag, the bound evaluator table and the optional source
mask. -/
structure InitOut where
  msh_flag : MshFlags
  sys_flag : SysFlags
  compute_source : List (Option EvalTag)
  source_mask : Option (List ℕ)
deriving DecidableEq

/-- Embedding of `cs_source_term_init`: reject more than
`CS_N_MAX_SOURCE_TERMS` definitions, reset the evaluator table and the
mask, return early with zero flags when there is no source term, otherwise
run the classification loop and, if some definition does not span the
whole mesh, build the per-cell mask (one word per mesh cell, zeroed, then
`_set_mask` per definition).  A `bft_error` call is an `Except.error`. -/
def cs_source_term_init (scheme : SpaceScheme) (source_terms : List Xdef)
    (zone_cells : ℕ → List ℕ) (n_cells : ℕ) (sys_flag0 : SysFlags) :
    Except InitError InitOut :=
  if CS_N_MAX_SOURCE_TERMS < source_terms.length then
    .error (.tooManySourceTerms CS_N_MAX_SOURCE_TERMS)
  else
    let table0 : List (Option EvalTag) :=
      List.replicate CS_N_MAX_SOURCE_TERMS none
    if source_terms.length = 0 then
      .ok ⟨MshFlags.empty, sys_flag0, table0, none⟩
    else
      match initLoop scheme source_terms 0
          ⟨MshFlags.empty, sys_flag0, table0, false⟩ with
      | .error e => .error e
      | .ok s =>
        let mask :=
          if s.need_mask then
            some (buildMaskAux zone_cells source_terms 0
              (List.replicate n_cells 0))
          else none
        .ok ⟨s.msh, s.sys, s.table, mask⟩

/-! ## List and bit-mask helper lemmas -/

theorem getD_set_eq {α : Type} (l : List α) (c : ℕ) (x a : α)
    (h : c < l.length) : (l.set c x).getD c a = x := by
  induction l generalizing c with
  | nil => simp at h
  | cons y l ih =>
    cases c with
    | zero => rfl
    | succ c =>
      exact ih c (by simp only [List.length_cons] at h; omega)

theorem getD_set_ne {α : Type} (l : List α) (c c' : ℕ) (x a : α)
    (h : c ≠ c') : (l.set c x).getD c' a = l.getD c' a := by
  induction l generalizing c c' with
  | nil => rfl
  | cons y l ih =>
    cases c with
    | zero =>
      cases c' with
      | zero => exact absurd rfl h
      | succ c' => rfl
    | succ c =>
      cases c' with
      | zero => rfl
      | succ c' => exact ih c c' (fun hh => h (by rw [hh]))

theorem getD_replicate_zero (n c : ℕ) :
    (List.replicate n (0 : ℕ)).getD c 0 = 0 := by
  induction n generalizing c with
  | zero => rfl
  | succ n ih =>
    cases c with
    | zero => rfl
    | succ c => exact ih c

theorem getD_map_or (l : List ℕ) (m c : ℕ) (h : c < l.length) :
    (l.map (fun w => w ||| m)).getD c 0 = l.getD c 0 ||| m := by
  induction l generalizing c with
  | nil => simp at h
  | cons y l ih =>
    cases c with
    | zero => rfl
    | succ c =>
      exact ih c (by simp only [List.length_cons] at h; omega)

theorem zoneFold_length (id : ℕ) (zl : List ℕ) :
    ∀ m : List ℕ,
      (zl.foldl (fun cmk cc => cmk.set cc (cmk.getD cc 0 ||| 2 ^ id)) m).length
        = m.length := by
  induction zl with
  | nil => intro m; rfl
  | cons cc zl ih =>
    intro m
    rw [List.foldl_cons, ih, List.length_set]

theorem zoneFold_testBit (id : ℕ) (zl : List ℕ) :
    ∀ (m : List ℕ) (c j : ℕ), c < m.length →
      (((zl.foldl (fun cmk cc => cmk.set cc (cmk.getD cc 0 ||| 2 ^ id)) m).getD
          c 0).testBit j = true
        ↔ ((m.getD c 0).testBit j = true ∨ (j = id ∧ c ∈ zl))) := by
  induction zl with
  | nil =>
    intro m c j hc
    simp
  | cons cc zl ih =>
    intro m c j hc
    rw [List.foldl_cons,
      ih (m.set cc (m.getD cc 0 ||| 2 ^ id)) c j
        (by rw [List.length_set]; exact hc)]
    by_cases hcc : cc = c
    · subst hcc
      rw [getD_set_eq _ _ _ _ hc, Nat.testBit_lor]
      by_cases hj : j = id
      · subst hj
        simp [Nat.testBit_two_pow_self, List.mem_cons]
      · rw [Nat.testBit_two_pow_of_ne (fun hh => hj hh.symm)]
        simp [hj]
    · rw [getD_set_ne _ _ _ _ _ hcc]
      have hne : ¬(c = cc) := fun hh => hcc hh.symm
      rw [List.mem_cons]
      constructor
      · rintro (hm | ⟨hj, hz⟩)
        · exact Or.inl hm
        · exact Or.inr ⟨hj, Or.inr hz⟩
      · rintro (hm | ⟨hj, (hz | hz)⟩)
        · exact Or.inl hm
        · exact absurd hz hne
        · exact Or.inr ⟨hj, hz⟩

theorem set_mask_length (zc : ℕ → List ℕ) (st : Xdef) (id : ℕ)
    (m : List ℕ) : (_set_mask zc st id m).length = m.length := by
  unfold _set_mask
  by_cases hf : st.meta.fullLoc = true
  · rw [if_pos hf, List.length_map]
  · rw [if_neg hf, zoneFold_length]

theorem set_mask_testBit (zc : ℕ → List ℕ) (st : Xdef) (id : ℕ)
    (m : List ℕ) (c j : ℕ) (hc : c < m.length) :
    ((_set_mask zc st id m).getD c 0).testBit j = true
      ↔ ((m.getD c 0).testBit j = true
          ∨ (j = id ∧ (st.meta.fullLoc = true ∨ c ∈ zc st.z_id))) := by
  unfold _set_mask
  by_cases hf : st.meta.fullLoc = true
  · rw [if_pos hf, getD_map_or _ _ _ hc, Nat.testBit_lor]
    by_cases hj : j = id
    · subst hj
      simp [Nat.testBit_two_pow_self, hf]
    · rw [Nat.testBit_two_pow_of_ne (fun hh => hj hh.symm)]
      simp [hj]
  · rw [if_neg hf, zoneFold_testBit _ _ _ _ _ hc]
    simp [hf]

theorem buildMaskAux_length (zc : ℕ → List ℕ) (ds : List Xdef) :
    ∀ (i : ℕ) (m : List ℕ), (buildMaskAux zc ds i m).length = m.length := by
  induction ds with
  | nil => intro i m; rfl
  | cons d ds ih =>
    intro i m
    rw [buildMaskAux, ih, set_mask_length]

theorem buildMaskAux_testBit (zc : ℕ → List ℕ) (ds : List Xdef) :
    ∀ (i : ℕ) (m : List ℕ) (c j : ℕ), c < m.length →
      (((buildMaskAux zc ds i m).getD c 0).testBit j = true
        ↔ ((m.getD c 0).testBit j = true
            ∨ ∃ k, k < ds.length ∧ j = i + k
                ∧ ((ds.getD k default).meta.fullLoc = true
                    ∨ c ∈ zc (ds.getD k default).z_id))) := by
  induction ds with
  | nil =>
    intro i m c j hc
    simp [buildMaskAux]
  | cons d ds ih =>
    intro i m c j hc
    rw [buildMaskAux,
      ih (i + 1) _ c j (by rw [set_mask_length]; exact hc),
      set_mask_testBit _ _ _ _ _ _ hc]
    constructor
    · rintro ((hm | ⟨hj, hp⟩) | ⟨k, hk, hj, hp⟩)
      · exact Or.inl hm
      · exact Or.inr ⟨0, by simp, by omega, hp⟩
      · refine Or.inr ⟨k + 1, ?_, by omega, hp⟩
        simp only [List.length_cons]
        omega
    · rintro (hm | ⟨k, hk, hj, hp⟩)
      · exact Or.inl (Or.inl hm)
      · cases k with
        | zero => exact Or.inl (Or.inr ⟨by omega, hp⟩)
        | succ k =>
          refine Or.inr ⟨k, ?_, by omega, hp⟩
          simp only [List.length_cons] at hk
          omega

/-- The per-cell mask built by `cs_source_term_init`: bit `j` of cell `c`'s
word is set iff `j` indexes a definition that spans the whole mesh or whose
zone contains `c`. -/
theorem mask_from_build (zc : ℕ → List ℕ) (defs : List Xdef) (n_cells : ℕ)
    (c j : ℕ) (hc : c < n_cells) :
    (((buildMaskAux zc defs 0 (List.replicate n_cells 0)).getD c 0).testBit j
        = true
      ↔ (j < defs.length
          ∧ ((defs.getD j default).meta.fullLoc = true
              ∨ c ∈ zc (defs.getD j default).z_id))) := by
  rw [buildMaskAux_testBit zc defs 0 _ c j
    (by rw [List.length_replicate]; exact hc)]
  rw [getD_replicate_zero]
  simp only [Nat.zero_testBit, Bool.false_eq_true, false_or]
  constructor
  · rintro ⟨k, hk, hj, hp⟩
    have hkj : k = j := by omega
    subst hkj
    exact ⟨hk, hp⟩
  · rintro ⟨hj, hp⟩
    exact ⟨j, hj, by omega, hp⟩

/-! ## Classification-loop lemmas -/

theorem preUpdate_need_mask (scheme : SpaceScheme) (d : Xdef) (s : LoopState) :
    (preUpdate scheme d s).need_mask = (s.need_mask || !d.meta.fullLoc) := by
  unfold preUpdate
  cases hf : d.meta.fullLoc <;>
    by_cases hp : (d.meta.primal
        && (decide (scheme = SpaceScheme.CDOVB)
            || decide (scheme = SpaceScheme.CDOVCB))) = true <;>
      simp [hf, hp]

theorem preUpdate_table (scheme : SpaceScheme) (d : Xdef) (s : LoopState) :
    (preUpdate scheme d s).table = s.table := by
  unfold preUpdate
  cases hf : d.meta.fullLoc <;>
    by_cases hp : (d.meta.primal
        && (decide (scheme = SpaceScheme.CDOVB)
            || decide (scheme = SpaceScheme.CDOVCB))) = true <;>
      simp [hf, hp]

theorem initStep_ok_need (scheme : SpaceScheme) (i : ℕ) (d : Xdef)
    (s s' : LoopState) (h : initStep scheme i d s = .ok s') :
    s'.need_mask = (s.need_mask || !d.meta.fullLoc) := by
  unfold initStep at h
  cases hb : bindEvaluator scheme d with
  | error e =>
    rw [hb] at h
    exact Except.noConfusion h
  | ok mt =>
    rw [hb] at h
    injection h with h'
    subst h'
    exact preUpdate_need_mask scheme d s

theorem initStep_ok_table (scheme : SpaceScheme) (i : ℕ) (d : Xdef)
    (s s' : LoopState) (h : initStep scheme i d s = .ok s') :
    ∃ tag, s'.table = s.table.set i (some tag) := by
  unfold initStep at h
  cases hb : bindEvaluator scheme d with
  | error e =>
    rw [hb] at h
    exact Except.noConfusion h
  | ok mt =>
    rw [hb] at h
    injection h with h'
    subst h'
    exact ⟨mt.2, by rw [preUpdate_table]⟩

theorem initLoop_need_mask (scheme : SpaceScheme) (ds : List Xdef) :
    ∀ (i : ℕ) (s s' : LoopState), initLoop scheme ds i s = .ok s' →
      s'.need_mask = (s.need_mask || ds.any (fun d => !d.meta.fullLoc)) := by
  induction ds with
  | nil =>
    intro i s s' h
    cases h
    simp
  | cons d ds ih =>
    intro i s s' h
    rw [initLoop] at h
    cases hstep : initStep scheme i d s with
    | error e =>
      rw [hstep] at h
      exact Except.noConfusion h
    | ok s1 =>
      rw [hstep] at h
      rw [ih _ _ _ h, initStep_ok_need _ _ _ _ _ hstep]
      simp [Bool.or_assoc]

theorem initLoop_table_spec (scheme : SpaceScheme) (ds : List Xdef) :
    ∀ (i : ℕ) (s s' : LoopState), initLoop scheme ds i s = .ok s' →
      (∀ k, k < i → s'.table.getD k none = s.table.getD k none)
      ∧ (∀ k, i ≤ k → k < i + ds.length → k < s.table.length →
          (s'.table.getD k none).isSome = true)
      ∧ s'.table.length = s.table.length := by
  induction ds with
  | nil =>
    intro i s s' h
    cases h
    refine ⟨fun k _ => rfl, fun k hk1 hk2 _ => ?_, rfl⟩
    simp only [List.length_nil, Nat.add_zero] at hk2
    omega
  | cons d ds ih =>
    intro i s s' h
    rw [initLoop] at h
    cases hstep : initStep scheme i d s with
    | error e =>
      rw [hstep] at h
      exact Except.noConfusion h
    | ok s1 =>
      rw [hstep] at h
      obtain ⟨tag, htab⟩ := initStep_ok_table _ _ _ _ _ hstep
      obtain ⟨ih1, ih2, ih3⟩ := ih (i + 1) s1 s' h
      have hlen1 : s1.table.length = s.table.length := by
        rw [htab, List.length_set]
      refine ⟨?_, ?_, by rw [ih3, hlen1]⟩
      · intro k hk
        rw [ih1 k (by omega), htab, getD_set_ne _ _ _ _ _ (by omega)]
      · intro k hk1 hk2 hk3
        by_cases hki : k = i
        · subst hki
          rw [ih1 k (by omega), htab, getD_set_eq _ _ _ _ hk3]
          rfl
        · refine ih2 k (by omega) ?_ (by rw [hlen1]; exact hk3)
          simp only [List.length_cons] at hk2
          omega

theorem initLoop_error_of_dual_cdovcb (ds : List Xdef) :
    ∀ (i : ℕ) (s : LoopState) (d : Xdef), d ∈ ds → d.meta.dual = true →
      ∃ e, initLoop SpaceScheme.CDOVCB ds i s = .error e := by
  induction ds with
  | nil =>
    intro i s d hd _
    exact absurd hd (List.not_mem_nil d)
  | cons d0 ds ih =>
    intro i s d hd hdual
    cases hstep : initStep SpaceScheme.CDOVCB i d0 s with
    | error e =>
      exact ⟨e, by rw [initLoop, hstep]⟩
    | ok s1 =>
      have hd0 : d0.meta.dual = false := by
        cases hmm : d0.meta.dual with
        | false => rfl
        | true =>
          have hbind : bindEvaluator SpaceScheme.CDOVCB d0
              = .error .dualNotHandledCDOVCB := by
            simp [bindEvaluator, hmm]
          unfold initStep at hstep
          rw [hbind] at hstep
          exact Except.noConfusion hstep
      have hd' : d ∈ ds := by
        cases List.mem_cons.mp hd with
        | inl h' =>
          subst h'
          rw [hdual] at hd0
          exact Bool.noConfusion hd0
        | inr h' => exact h'
      obtain ⟨e, he⟩ := ih (i + 1) s1 d hd' hdual
      exact ⟨e, by rw [initLoop, hstep]; exact he⟩

/-- On success, `cs_source_term_init` returns a `none` mask exactly when all
definitions span the whole mesh. -/
theorem init_ok_mask_none_iff (scheme : SpaceScheme) (defs : List Xdef)
    (zc : ℕ → List ℕ) (n_cells : ℕ) (sys0 : SysFlags) (out : InitOut)
    (h : cs_source_term_init scheme defs zc n_cells sys0 = .ok out) :
    (out.source_mask = none ↔ ∀ d ∈ defs, d.meta.fullLoc = true) := by
  unfold cs_source_term_init at h
  by_cases hmax : CS_N_MAX_SOURCE_TERMS < defs.length
  · rw [if_pos hmax] at h
    exact Except.noConfusion h
  · rw [if_neg hmax] at h
    by_cases h0 : defs.length = 0
    · rw [if_pos h0] at h
      injection h with h'
      subst h'
      have : defs = [] := List.length_eq_zero.mp h0
      subst this
      simp
    · rw [if_neg h0] at h
      cases hloop : initLoop scheme defs 0
          ⟨MshFlags.empty, sys0, List.replicate CS_N_MAX_SOURCE_TERMS none,
            false⟩ with
      | error e =>
        rw [hloop] at h
        exact Except.noConfusion h
      | ok s =>
        rw [hloop] at h
        injection h with h'
        subst h'
        have hneed : s.need_mask = defs.any (fun d => !d.meta.fullLoc) := by
          have := initLoop_need_mask scheme defs 0 _ s hloop
          simpa using this
        by_cases hn : s.need_mask = true
        · simp only [hn, if_pos]
          constructor
          · intro hcontr
            exact Option.noConfusion hcontr
          · intro hall
            rw [hneed] at hn
            rw [List.any_eq_true] at hn
            obtain ⟨d, hd, hdf⟩ := hn
            rw [Bool.not_eq_true'] at hdf
            rw [hall d hd] at hdf
            exact Bool.noConfusion hdf
        · have hn' : s.need_mask = false := by
            cases hmm : s.need_mask with
            | false => rfl
            | true => exact absurd hmm hn
          simp only [hn', Bool.false_eq_true, if_neg, if_false]
          constructor
          · intro _ d hd
            rw [hneed] at hn'
            have := List.any_eq_false.mp hn' d hd
            rw [Bool.not_eq_true'] at this
            simpa using this
          · intro _
            trivial

/-- On success with a `some` mask, the mask is exactly the one built by the
mask-building loop over one word per mesh cell. -/
theorem init_ok_mask_eq (scheme : SpaceScheme) (defs : List Xdef)
    (zc : ℕ → List ℕ) (n_cells : ℕ) (sys0 : SysFlags) (out : InitOut)
    (h : cs_source_term_init scheme defs zc n_cells sys0 = .ok out)
    (mask : List ℕ) (hm : out.source_mask = some mask) :
    mask = buildMaskAux zc defs 0 (List.replicate n_cells 0) := by
  unfold cs_source_term_init at h
  by_cases hmax : CS_N_MAX_SOURCE_TERMS < defs.length
  · rw [if_pos hmax] at h
    exact Except.noConfusion h
  · rw [if_neg hmax] at h
    by_cases h0 : defs.length = 0
    · rw [if_pos h0] at h
      injection h with h'
      subst h'
      exact Option.noConfusion hm
    · rw [if_neg h0] at h
      cases hloop : initLoop scheme defs 0
          ⟨MshFlags.empty, sys0, List.replicate CS_N_MAX_SOURCE_TERMS none,
            false⟩ with
      | error e =>
        rw [hloop] at h
        exact Except.noConfusion h
      | ok s =>
        rw [hloop] at h
        injection h with h'
        subst h'
        by_cases hn : s.need_mask = true
        · simp only [hn, if_pos] at hm
          injection hm with hm'
          exact hm'.symm
        · have hn' : s.need_mask = false := by
            cases hmm : s.need_mask with
            | false => rfl
            | true => exact absurd hmm hn
          simp only [hn', Bool.false_eq_true, if_false] at hm
          exact Option.noConfusion hm

/-- A zonal (not full-domain) by-value dual-cell definition on zone 1. -/
def srcZoneVal : Xdef where
  z_id := 1
  meta := ⟨false, true, false⟩
  type := .byValue
  qtype := .bary
  input_val := 1
  ana := fun _ _ => 0

/-- A full-domain primal by-value definition. -/
def srcPrimalVal : Xdef where
  z_id := 0
  meta := ⟨true, false, true⟩
  type := .byValue
  qtype := .bary
  input_val := 1
  ana := fun _ _ => 0

/-- A zone table: zone 1 holds exactly cell 1, every other zone is empty. -/
def zcW : ℕ → List ℕ := fun z => if z = 1 then [1] else []

/-- System flags with every bit clear. -/
def sysOff : SysFlags := ⟨false, false, false⟩

/-- The output of `cs_source_term_init` on
`CDOVB, [srcVal2, srcZoneVal], zcW, 2 cells`. -/
def outC3 : InitOut :=
  ⟨mshF false true false false false false false false false,
   ⟨false, false, false⟩,
   [some .dcsd_by_value, some .dcsd_by_value, none, none, none, none, none,
    none],
   some [1, 3]⟩

/-! ## Claim C3 -/

/-- C3: after a successful `cs_source_term_init` on `n` definitions, the
source mask is `none` iff every definition carries the full-domain flag;
otherwise the mask has one word per mesh cell and bit `i` of cell `c`'s
word is set iff `i` indexes a definition that covers the full domain or
whose zone contains `c` — and no other bit is set. -/
theorem init_source_mask_invariant (scheme : SpaceScheme) (defs : List Xdef)
    (zc : ℕ → List ℕ) (n_cells : ℕ) (sys0 : SysFlags) (out : InitOut)
    (h : cs_source_term_init scheme defs zc n_cells sys0 = .ok out) :
    (out.source_mask = none ↔ ∀ d ∈ defs, d.meta.fullLoc = true)
    ∧ (∀ mask, out.source_mask = some mask →
        mask.length = n_cells
        ∧ ∀ c, c < n_cells → ∀ j,
            ((mask.getD c 0).testBit j = true
              ↔ (j < defs.length
                  ∧ ((defs.getD j default).meta.fullLoc = true
                      ∨ c ∈ zc (defs.getD j default).z_id)))) := by
  refine ⟨init_ok_mask_none_iff _ _ _ _ _ _ h, ?_⟩
  intro mask hm
  have hme := init_ok_mask_eq _ _ _ _ _ _ h mask hm
  subst hme
  refine ⟨by rw [buildMaskAux_length, List.length_replicate], ?_⟩
  intro c hc j
  exact mask_from_build zc defs n_cells c j hc

/-- Witness for C3: the two-definition run (one full-domain, one on zone 1)
over two cells yields the mask `[1, 3]`, and bit 1 of cell 1's word is set
exactly because cell 1 lies in the second definition's zone. -/
theorem init_source_mask_invariant_witness :
    (([1, 3] : List ℕ).getD 1 0).testBit 1 = true
      ↔ (1 < [srcVal2, srcZoneVal].length
          ∧ (([srcVal2, srcZoneVal].getD 1 default).meta.fullLoc = true
              ∨ 1 ∈ zcW ([srcVal2, srcZoneVal].getD 1 default).z_id)) :=
  ((init_source_mask_invariant SpaceScheme.CDOVB [srcVal2, srcZoneVal] zcW 2
      sysOff outC3 (by rfl)).2 [1, 3] rfl).2 1 (by omega) 1

/-! ## Claim C5 -/

/-- C5: for a definition whose zone does not contain cell `c` and which does
not span the whole mesh, the mask built by `cs_source_term_init` has bit 0
of `c`'s word clear, so the per-cell dispatcher on `c` invokes no
evaluator whatsoever (for every possible evaluator table) and, with this
single source term, leaves the output buffer identically zero on the local
DoFs. -/
theorem zonal_source_term_skipped_outside_zone
    (scheme : SpaceScheme) (d : Xdef) (zc : ℕ → List ℕ) (n_cells : ℕ)
    (sys0 : SysFlags) (out : InitOut) (mask : List ℕ) (cm : CellMesh)
    (sys : SysFlags) (table : ℕ → Evaluator) (cb : CellBuilder) (k : ℕ)
    (buf : Buffer)
    (hfull : d.meta.fullLoc = false)
    (h : cs_source_term_init scheme [d] zc n_cells sys0 = .ok out)
    (hm : out.source_mask = some mask)
    (hcm : cm.c_id < n_cells) (hz : cm.c_id ∉ zc d.z_id) :
    (mask.getD cm.c_id 0).testBit 0 = false
    ∧ cs_source_term_compute_cellwise 1 [some d] cm sys (some mask) table cb
        k buf = zeroFirst k buf
    ∧ ∀ i, i < k →
        cs_source_term_compute_cellwise 1 [some d] cm sys (some mask) table
          cb k buf i = 0 := by
  have hme := init_ok_mask_eq _ _ _ _ _ _ h mask hm
  subst hme
  have hbit : ((buildMaskAux zc [d] 0 (List.replicate n_cells 0)).getD
      cm.c_id 0).testBit 0 = false := by
    rw [Bool.eq_false_iff]
    intro hcontr
    rw [mask_from_build zc [d] n_cells cm.c_id 0 hcm] at hcontr
    obtain ⟨_, hp⟩ := hcontr
    cases hp with
    | inl hfl =>
      have hdd : [d].getD 0 default = d := rfl
      rw [hdd, hfull] at hfl
      exact Bool.noConfusion hfl
    | inr hzz => exact hz hzz
  have hdisp : cs_source_term_compute_cellwise 1 [some d] cm sys
      (some (buildMaskAux zc [d] 0 (List.replicate n_cells 0))) table cb k buf
        = zeroFirst k buf := by
    unfold cs_source_term_compute_cellwise computeCellwiseBody
    by_cases hs : sys.sourceterm = false
    · rw [if_pos hs]
    · rw [if_neg hs]
      show List.foldl
          (fun b st_id =>
            if ((buildMaskAux zc [d] 0
                  (List.replicate n_cells 0)).getD cm.c_id 0).testBit st_id
                = true then
              table st_id ([some d].getD st_id none) cm cb b
            else b)
          (zeroFirst k buf) (List.range 1) = zeroFirst k buf
      have hr : List.range 1 = [0] := by
        rw [List.range_succ, List.range_zero, List.nil_append]
      rw [hr, List.foldl_cons, List.foldl_nil,
        if_neg (by rw [hbit]; exact Bool.false_ne_true)]
  refine ⟨hbit, hdisp, ?_⟩
  intro i hi
  rw [hdisp]
  unfold zeroFirst
  rw [if_pos hi]

/-- Witness for C5: the zone-1 definition over two cells builds the mask
`[0, 1]`; on cell 0 (outside the zone) the dispatcher leaves the buffer
zeroed. -/
theorem zonal_source_term_skipped_outside_zone_witness :
    (([0, 1] : List ℕ).getD 0 0).testBit 0 = false
    ∧ cs_source_term_compute_cellwise 1 [some srcZoneVal] cmUnitTet
        ⟨true, false, false⟩ (some [0, 1])
        (fun _ => evalTagFun env0 .dcsd_by_value) cb0 4 (fun _ => 3)
      = zeroFirst 4 (fun _ => 3)
    ∧ ∀ i, i < 4 →
        cs_source_term_compute_cellwise 1 [some srcZoneVal] cmUnitTet
          ⟨true, false, false⟩ (some [0, 1])
          (fun _ => evalTagFun env0 .dcsd_by_value) cb0 4 (fun _ => 3) i
          = 0 :=
  zonal_source_term_skipped_outside_zone SpaceScheme.CDOVB srcZoneVal zcW 2
    sysOff ⟨mshF false true false false false false false false false, sysOff,
      [some .dcsd_by_value, none, none, none, none, none, none, none],
      some [0, 1]⟩
    [0, 1] cmUnitTet ⟨true, false, false⟩
    (fun _ => evalTagFun env0 .dcsd_by_value) cb0 4 (fun _ => 3)
    rfl (by rfl) rfl (by norm_num [cmUnitTet])
    (by simp [cmUnitTet, zcW, srcZoneVal])

/-! ## Claim C7 -/

/-- C7 fails on the code in one respect: the fatal error raised for a
DUAL-location source term under the CDOVCB scheme is the same fixed
diagnostic whatever the offending definition's index (and
`cs_source_term_init` is not even passed the equation's identity), so the
error cannot identify the offending equation or definition index: with the
offending definition at index 0 and at index 1 the returned error values
are identical. -/
theorem cdovcb_dual_error_identical_across_indices :
    cs_source_term_init SpaceScheme.CDOVCB [srcVal2] zcW 1 sysOff
      = .error .dualNotHandledCDOVCB
    ∧ cs_source_term_init SpaceScheme.CDOVCB [srcPrimalVal, srcVal2] zcW 1
        sysOff
      = .error .dualNotHandledCDOVCB :=
  ⟨rfl, rfl⟩

/-- C7 amended: a DUAL-location source term under the CDOVCB scheme always
makes `cs_source_term_init` fail with a fatal configuration error (and it
never silently binds a default evaluator: on every successful run every
definition index has an evaluator bound); the raised error however does not
identify the offending equation or definition index. -/
theorem cdovcb_dual_is_fatal_and_no_silent_default :
    (∀ (defs : List Xdef) (zc : ℕ → List ℕ) (n_cells : ℕ) (sys0 : SysFlags)
        (d : Xdef), d ∈ defs → d.meta.dual = true →
        ∃ e, cs_source_term_init SpaceScheme.CDOVCB defs zc n_cells sys0
          = .error e)
    ∧ (∀ (scheme : SpaceScheme) (defs : List Xdef) (zc : ℕ → List ℕ)
        (n_cells : ℕ) (sys0 : SysFlags) (out : InitOut),
        cs_source_term_init scheme defs zc n_cells sys0 = .ok out →
        ∀ k, k < defs.length →
          (out.compute_source.getD k none).isSome = true) := by
  constructor
  · intro defs zc n_cells sys0 d hd hdual
    unfold cs_source_term_init
    by_cases hmax : CS_N_MAX_SOURCE_TERMS < defs.length
    · rw [if_pos hmax]
      exact ⟨_, rfl⟩
    · rw [if_neg hmax]
      have h0 : ¬defs.length = 0 := by
        intro hc
        rw [List.length_eq_zero] at hc
        subst hc
        exact absurd hd (List.not_mem_nil d)
      rw [if_neg h0]
      obtain ⟨e, he⟩ := initLoop_error_of_dual_cdovcb defs 0
        ⟨MshFlags.empty, sys0, List.replicate CS_N_MAX_SOURCE_TERMS none,
          false⟩ d hd hdual
      rw [he]
      exact ⟨e, rfl⟩
  · intro scheme defs zc n_cells sys0 out h k hk
    unfold cs_source_term_init at h
    by_cases hmax : CS_N_MAX_SOURCE_TERMS < defs.length
    · rw [if_pos hmax] at h
      exact Except.noConfusion h
    · rw [if_neg hmax] at h
      by_cases h0 : defs.length = 0
      · omega
      · rw [if_neg h0] at h
        cases hloop : initLoop scheme defs 0
            ⟨MshFlags.empty, sys0, List.replicate CS_N_MAX_SOURCE_TERMS none,
              false⟩ with
        | error e =>
          rw [hloop] at h
          exact Except.noConfusion h
        | ok s =>
          rw [hloop] at h
          injection h with h'
          subst h'
          have := (initLoop_table_spec scheme defs 0 _ s hloop).2.1 k
            (by omega) (by omega)
            (by rw [List.length_replicate]; omega)
          simpa using this

/-- Witness for the amended C7: one dual definition under CDOVCB fails. -/
theorem cdovcb_dual_is_fatal_witness :
    ∃ e, cs_source_term_init SpaceScheme.CDOVCB [srcVal2] zcW 1 sysOff
      = .error e :=
  cdovcb_dual_is_fatal_and_no_silent_default.1 [srcVal2] zcW 1 sysOff srcVal2
    (List.mem_cons_self srcVal2 []) rfl

/-! ## Claim C8 -/

/-- C8: `cs_source_term_init` fails with the too-many-source-terms error
whenever the number of definitions exceeds `CS_N_MAX_SOURCE_TERMS`, rather
than silently overflowing the mask word. -/
theorem init_rejects_too_many_source_terms (scheme : SpaceScheme)
    (defs : List Xdef) (zc : ℕ → List ℕ) (n_cells : ℕ) (sys0 : SysFlags)
    (h : CS_N_MAX_SOURCE_TERMS < defs.length) :
    cs_source_term_init scheme defs zc n_cells sys0
      = .error (.tooManySourceTerms CS_N_MAX_SOURCE_TERMS) := by
  unfold cs_source_term_init
  rw [if_pos h]

/-- Witness for C8: nine definitions exceed the bound of eight. -/
theorem init_rejects_too_many_source_terms_witness :
    cs_source_term_init SpaceScheme.CDOVB (List.replicate 9 srcVal2) zcW 1
        sysOff
      = .error (.tooManySourceTerms CS_N_MAX_SOURCE_TERMS) :=
  init_rejects_too_many_source_terms SpaceScheme.CDOVB
    (List.replicate 9 srcVal2) zcW 1 sysOff
    (by norm_num [CS_N_MAX_SOURCE_TERMS])
